import Mathlib

/-!
Verification of the transformation operations of the graphAttack
computation-graph engine (FlattenFeaturesOperation,
ReshapeFeaturesOperation, SliceOperation from
graphAttack/operations/transformationOperations.py).

Arrays are embedded in the numpy style: a shape (list of dimension sizes)
together with a flat row-major data buffer.  Entries are exact integers:
the transformation operations below only move entries around and add
them, so every claim about them is a ring identity, and exact integer
entries keep all definitions executable by the kernel.  numpy reshape
keeps the buffer and only changes the shape; basic indexing with an index
expression made of integer indices and full slices gathers elements, and
index assignment scatters them back.  Fallible numpy calls (reshape with a
mismatched element count, indexing with an incompatible expression) return
Option/Except values.
-/

/-- Multidimensional numeric array in the numpy style: a shape and a flat
row-major data buffer. -/
structure NDArray where
  shape : List Nat
  data : List ℤ
deriving DecidableEq

/-- Row-major flat index of a multi-index within a shape. -/
def flattenIdx : List Nat → List Nat → Nat
  | _ :: ds, i :: is => i * ds.prod + flattenIdx ds is
  | _, _ => 0

/-- Multi-index within a shape corresponding to a row-major flat index. -/
def unflattenIdx : List Nat → Nat → List Nat
  | [], _ => []
  | _ :: ds, k => k / ds.prod :: unflattenIdx ds (k % ds.prod)

/-- Whether a multi-index is within a shape's bounds. -/
def posInShape : List Nat → List Nat → Bool
  | [], [] => true
  | d :: ds, i :: is => decide (i < d) && posInShape ds is
  | _, _ => false

/-- Element of an array at a multi-index (0 outside the buffer). -/
def NDArray.get (a : NDArray) (p : List Nat) : ℤ :=
  a.data.getD (flattenIdx a.shape p) 0

/-- Embeds numpy.zeros. -/
def npZeros (s : List Nat) : NDArray :=
  ⟨s, List.replicate s.prod 0⟩

/-- Embeds numpy.ones. -/
def npOnes (s : List Nat) : NDArray :=
  ⟨s, List.replicate s.prod 1⟩

/-- Embeds numpy reshape: the same flat buffer under the new shape; fails
when the total element count differs. -/
def npReshape (a : NDArray) (newShape : List Nat) : Option NDArray :=
  if a.data.length = newShape.prod then some ⟨newShape, a.data⟩ else none

/-- Embeds numpy element-wise addition of two arrays of equal shape (the
only case the operations below exercise: every gradient added to an
accumulator has been reshaped to, or already has, the accumulator's
shape). -/
def npAdd (a b : NDArray) : Option NDArray :=
  if a.shape = b.shape then some ⟨a.shape, List.zipWith (· + ·) a.data b.data⟩
  else none

/-- One item of a numpy basic index expression: a fixed integer index that
selects one position of an axis, or a full slice (a lone colon) that keeps
the whole axis. -/
inductive IdxItem where
  | fixed (n : Nat)
  | all
deriving DecidableEq

/-- Basic numpy index expression (the tuple numpy.index_exp builds),
applied to the leading axes of an array; axes beyond its length are kept
whole. -/
abbrev IndexExp := List IdxItem

/-- Shape of the result of indexing an array of shape s with expression E;
none embeds numpy's IndexError (too many indices, or an index out of
bounds). -/
def sliceShape : IndexExp → List Nat → Option (List Nat)
  | [], s => some s
  | IdxItem.fixed n :: E, d :: s => if n < d then sliceShape E s else none
  | IdxItem.all :: E, d :: s => (sliceShape E s).map (fun t => d :: t)
  | _ :: _, [] => none

/-- Whether a multi-index of the base array lies in the selection of the
index expression. -/
def matchesE : IndexExp → List Nat → Bool
  | [], _ => true
  | IdxItem.fixed n :: E, i :: p => i == n && matchesE E p
  | IdxItem.all :: E, _ :: p => matchesE E p
  | _ :: _, [] => false

/-- Multi-index within the sliced result corresponding to a selected
multi-index of the base array: the coordinates of fixed axes are
dropped. -/
def residualIdx : IndexExp → List Nat → List Nat
  | [], p => p
  | IdxItem.fixed _ :: E, _ :: p => residualIdx E p
  | IdxItem.all :: E, i :: p => i :: residualIdx E p
  | _ :: _, [] => []

/-- Multi-index of the base array from which a multi-index of the sliced
result reads: the coordinates of fixed axes are reinserted. -/
def expandIdx : IndexExp → List Nat → List Nat
  | [], q => q
  | IdxItem.fixed n :: E, q => n :: expandIdx E q
  | IdxItem.all :: E, i :: q => i :: expandIdx E q
  | IdxItem.all :: _, [] => []

/-- Embeds numpy basic indexing a[E]: gather the selected elements into an
array of the sliced shape. -/
def npIndex (a : NDArray) (E : IndexExp) : Option NDArray :=
  match sliceShape E a.shape with
  | none => none
  | some s =>
    some ⟨s, (List.range s.prod).map (fun k => a.get (expandIdx E (unflattenIdx s k)))⟩

/-- Embeds numpy index assignment a[E] = v: positions in the selection take
v's entries, the others keep a's; v must have the sliced shape (the case
the operations below exercise; broadcasting of v is not needed). -/
def npSetIndex (a : NDArray) (E : IndexExp) (v : NDArray) : Option NDArray :=
  match sliceShape E a.shape with
  | none => none
  | some s =>
    if v.shape = s then
      some ⟨a.shape, (List.range a.data.length).map (fun k =>
        if matchesE E (unflattenIdx a.shape k) then
          v.get (residualIdx E (unflattenIdx a.shape k))
        else a.data.getD k 0)⟩
    else none

/-- Error kinds arising during graph construction: ShapeError is
graphAttack's own error class (defined in coreNode); ValueError and
IndexError are Python's built-in errors (the latter is what numpy indexing
raises). -/
inductive GAError where
  | valueError
  | indexError
  | shapeError
deriving DecidableEq

/-- Embeds FlattenFeaturesOperation.setShape: from the input shape, the
pair (nExamples, output shape).  Rank >= 2 keeps the leading examples axis
and multiplies the remaining dimensions; rank 1 becomes a single example;
rank 0 raises IndexError reading shape[0] (hence none). -/
def FlattenFeaturesOperation.setShape : List Nat → Option (Nat × List Nat)
  | [] => none
  | [d] => some (1, [1, d])
  | n :: rest => some (n, [n, rest.prod])

/-- Embeds FlattenFeaturesOperation.perform: a.reshape(self.shape). -/
def FlattenFeaturesOperation.perform (shape : List Nat) (a : NDArray) : Option NDArray :=
  npReshape a shape

/-- Embeds FlattenFeaturesOperation.performGradient: ones of the input
shape for an end node; otherwise a zeros accumulator of the input shape
into which each consumer-supplied gradient, reshaped to the input shape,
is added in turn. -/
def FlattenFeaturesOperation.performGradient (endNode : Bool) (inputShape : List Nat)
    (consumerGrads : List NDArray) : Option NDArray :=
  if endNode then some (npOnes inputShape)
  else consumerGrads.foldlM
    (fun grad g => (npReshape g inputShape).bind (fun t => npAdd grad t))
    (npZeros inputShape)

/-- Embeds ReshapeFeaturesOperation.setShape: the pair (nExamples, output
shape); the output shape is always (n,) + exampleShape with n the leading
input dimension for rank >= 2 and 1 otherwise.  The body performs no
compatibility check and cannot fail. -/
def ReshapeFeaturesOperation.setShape (inputShape exampleShape : List Nat) : Nat × List Nat :=
  match inputShape with
  | n :: _ :: _ => (n, n :: exampleShape)
  | _ => (1, 1 :: exampleShape)

/-- Embeds ReshapeFeaturesOperation.perform: a.reshape(self.shape). -/
def ReshapeFeaturesOperation.perform (shape : List Nat) (a : NDArray) : Option NDArray :=
  npReshape a shape

/-- Embeds ReshapeFeaturesOperation.performGradient: textually identical to
FlattenFeaturesOperation.performGradient in the source. -/
def ReshapeFeaturesOperation.performGradient (endNode : Bool) (inputShape : List Nat)
    (consumerGrads : List NDArray) : Option NDArray :=
  if endNode then some (npOnes inputShape)
  else consumerGrads.foldlM
    (fun grad g => (npReshape g inputShape).bind (fun t => npAdd grad t))
    (npZeros inputShape)

/-- Embeds SliceOperation.setShape: index a zeros test matrix of the input
shape and take the result's shape; numpy's IndexError propagates when the
index expression is incompatible with the input shape. -/
def SliceOperation.setShape (E : IndexExp) (inputShape : List Nat) :
    Except GAError (List Nat) :=
  match npIndex (npZeros inputShape) E with
  | none => Except.error GAError.indexError
  | some r => Except.ok r.shape

/-- Modelled from the spec: the base class SingleInputOperation (its file
is not under src/) runs setShape once at construction.  This function
embeds constructing a SliceOperation: SliceOperation.init raises
ValueError when no index expression is given; otherwise setShape runs and
its outcome (the operation's shape, or numpy's IndexError) is the outcome
of construction. -/
def SliceOperation.construct (indexExp : Option IndexExp) (inputShape : List Nat) :
    Except GAError (List Nat) :=
  match indexExp with
  | none => Except.error GAError.valueError
  | some E => SliceOperation.setShape E inputShape

/-- Embeds SliceOperation.perform: a[self.indexExp]. -/
def SliceOperation.perform (E : IndexExp) (a : NDArray) : Option NDArray :=
  npIndex a E

/-- Embeds SliceOperation.performGradient: ones of the input shape for an
end node; otherwise the consumer-supplied gradients are accumulated into a
zeros array of the output shape, and the accumulated sum is index-assigned
into a zeros array of the input shape. -/
def SliceOperation.performGradient (endNode : Bool) (inputShape outShape : List Nat)
    (E : IndexExp) (consumerGrads : List NDArray) : Option NDArray :=
  if endNode then some (npOnes inputShape)
  else (consumerGrads.foldlM npAdd (npZeros outShape)).bind
    (fun gradGather => npSetIndex (npZeros inputShape) E gradGather)

/-- C4: for an input of rank at least 2 with shape (n, d1, ..., dk),
FlattenFeaturesOperation.setShape keeps the leading examples dimension n
(also recorded as nExamples) and multiplies the remaining dimensions into
a single features dimension, giving output shape (n, d1*...*dk). -/
theorem spec_C4 (n d : Nat) (rest : List Nat) :
    FlattenFeaturesOperation.setShape (n :: d :: rest) = some (n, [n, (d :: rest).prod]) :=
  rfl

/-- C9: for a one-dimensional input of shape (d,),
FlattenFeaturesOperation.setShape sets nExamples to 1 and the output shape
to (1, d): the whole vector is one example, not d examples. -/
theorem spec_C9 (d : Nat) :
    FlattenFeaturesOperation.setShape [d] = some (1, [1, d]) :=
  rfl

/-- C5: for every transformation operation whose endNode flag is set,
performGradient returns an array of ones of the input operation's shape,
regardless of the consumer gradients, the index expression or the
parameters recorded at construction. -/
theorem spec_C5 (inputShape outShape : List Nat) (E : IndexExp) (grads : List NDArray) :
    FlattenFeaturesOperation.performGradient true inputShape grads = some (npOnes inputShape) ∧
    ReshapeFeaturesOperation.performGradient true inputShape grads = some (npOnes inputShape) ∧
    SliceOperation.performGradient true inputShape outShape E grads = some (npOnes inputShape) ∧
    (npOnes inputShape).shape = inputShape :=
  ⟨rfl, rfl, rfl, rfl⟩

/-- C10: FlattenFeaturesOperation.performGradient and
ReshapeFeaturesOperation.performGradient compute the same function: on the
same endNode flag, the same input shape and the same consumer-supplied
gradients they return the identical result. -/
theorem spec_C10 (endNode : Bool) (inputShape : List Nat) (grads : List NDArray) :
    FlattenFeaturesOperation.performGradient endNode inputShape grads =
      ReshapeFeaturesOperation.performGradient endNode inputShape grads :=
  rfl

/-! Helper lemmas about the flat-buffer array model. -/

lemma replicate_getD (n k : Nat) (x : ℤ) : (List.replicate n x).getD k x = x := by
  induction n generalizing k with
  | zero => simp [List.replicate]
  | succ m ih => cases k <;> simp [List.replicate, List.getD, ih]

lemma range_map_getD (f : Nat → ℤ) (n k : Nat) (h : k < n) :
    ((List.range n).map f).getD k 0 = f k := by
  have hl : k < ((List.range n).map f).length := by simpa using h
  rw [List.getD_eq_getElem _ _ hl, List.getElem_map, List.getElem_range]

lemma getD_of_length_le (l : List ℤ) (k : Nat) (h : l.length ≤ k) : l.getD k 0 = 0 := by
  rw [List.getD_eq_getElem?_getD, List.getElem?_eq_none (by simpa using h)]
  rfl

lemma zipWith_add_getD (a b : List ℤ) (h : a.length = b.length) (k : Nat) :
    (List.zipWith (· + ·) a b).getD k 0 = a.getD k 0 + b.getD k 0 := by
  induction a generalizing b k with
  | nil =>
    cases b with
    | nil => simp [List.getD]
    | cons y ys => simp at h
  | cons x xs ih =>
    cases b with
    | nil => simp at h
    | cons y ys =>
      cases k with
      | zero => simp [List.getD]
      | succ m =>
        simp only [List.zipWith, List.getD_cons_succ]
        exact ih ys (by simpa using h) m

theorem flattenIdx_lt : ∀ (s p : List Nat), posInShape s p = true → flattenIdx s p < s.prod := by
  intro s
  induction s with
  | nil =>
    intro p hp
    cases p with
    | nil => simp [flattenIdx]
    | cons i is => simp [posInShape] at hp
  | cons d ds ih =>
    intro p hp
    cases p with
    | nil => simp [posInShape] at hp
    | cons i is =>
      simp only [posInShape, Bool.and_eq_true, decide_eq_true_eq] at hp
      obtain ⟨hi, his⟩ := hp
      have hf := ih is his
      simp only [flattenIdx, List.prod_cons]
      calc i * ds.prod + flattenIdx ds is < i * ds.prod + ds.prod := by omega
        _ = (i + 1) * ds.prod := by ring
        _ ≤ d * ds.prod := Nat.mul_le_mul_right _ hi

theorem unflattenIdx_flattenIdx : ∀ (s p : List Nat), posInShape s p = true →
    unflattenIdx s (flattenIdx s p) = p := by
  intro s
  induction s with
  | nil =>
    intro p hp
    cases p with
    | nil => simp [unflattenIdx]
    | cons i is => simp [posInShape] at hp
  | cons d ds ih =>
    intro p hp
    cases p with
    | nil => simp [posInShape] at hp
    | cons i is =>
      simp only [posInShape, Bool.and_eq_true, decide_eq_true_eq] at hp
      obtain ⟨hi, his⟩ := hp
      have hf := flattenIdx_lt ds is his
      have hP : 0 < ds.prod := by omega
      have hre : i * ds.prod + flattenIdx ds is = ds.prod * i + flattenIdx ds is := by ring
      simp only [unflattenIdx, flattenIdx, hre]
      rw [Nat.mul_add_div hP, Nat.div_eq_of_lt hf, Nat.mul_add_mod, Nat.mod_eq_of_lt hf,
        Nat.add_zero, ih is his]

lemma npIndex_shape (a : NDArray) (E : IndexExp) :
    Option.map NDArray.shape (npIndex a E) = sliceShape E a.shape := by
  cases h : sliceShape E a.shape <;> simp [npIndex, h]

lemma foldlM_npAdd (s : List Nat) :
    ∀ (grads : List NDArray) (acc : NDArray), acc.shape = s → acc.data.length = s.prod →
      (∀ g ∈ grads, g.shape = s ∧ g.data.length = s.prod) →
      ∃ r, grads.foldlM npAdd acc = some r ∧ r.shape = s ∧ r.data.length = s.prod ∧
        ∀ k, r.data.getD k 0 = acc.data.getD k 0 + (grads.map (fun g => g.data.getD k 0)).sum := by
  intro grads
  induction grads with
  | nil =>
    intro acc h1 h2 _
    exact ⟨acc, by simp [List.foldlM], h1, h2, by simp⟩
  | cons g gs ih =>
    intro acc h1 h2 hg
    have hgs : ∀ x ∈ gs, x.shape = s ∧ x.data.length = s.prod :=
      fun x hx => hg x (List.mem_cons_of_mem _ hx)
    obtain ⟨hgsh, hglen⟩ := hg g (List.mem_cons_self _ _)
    have hadd : npAdd acc g = some ⟨s, List.zipWith (· + ·) acc.data g.data⟩ := by
      simp [npAdd, h1, hgsh]
    have hlen' : (List.zipWith (· + ·) acc.data g.data).length = s.prod := by
      simp [List.length_zipWith, h2, hglen]
    obtain ⟨r, hr, hrs, hrl, hsum⟩ :=
      ih ⟨s, List.zipWith (· + ·) acc.data g.data⟩ rfl hlen' hgs
    refine ⟨r, ?_, hrs, hrl, ?_⟩
    · simp only [List.foldlM, hadd, Option.bind_eq_bind, Option.some_bind]
      exact hr
    · intro k
      have hz := zipWith_add_getD acc.data g.data (by rw [h2, hglen]) k
      rw [hsum k]
      simp only [hz, List.map_cons, List.sum_cons]
      ring

lemma foldlM_reshape_npAdd (s : List Nat) :
    ∀ (grads : List NDArray) (acc : NDArray), acc.shape = s → acc.data.length = s.prod →
      (∀ g ∈ grads, g.data.length = s.prod) →
      ∃ r, grads.foldlM
          (fun grad g => (npReshape g s).bind (fun t => npAdd grad t)) acc = some r ∧
        r.shape = s ∧ r.data.length = s.prod ∧
        ∀ k, r.data.getD k 0 = acc.data.getD k 0 + (grads.map (fun g => g.data.getD k 0)).sum := by
  intro grads
  induction grads with
  | nil =>
    intro acc h1 h2 _
    exact ⟨acc, by simp [List.foldlM], h1, h2, by simp⟩
  | cons g gs ih =>
    intro acc h1 h2 hg
    have hgs : ∀ x ∈ gs, x.data.length = s.prod :=
      fun x hx => hg x (List.mem_cons_of_mem _ hx)
    have hglen := hg g (List.mem_cons_self _ _)
    have hstep : (npReshape g s).bind (fun t => npAdd acc t)
        = some ⟨s, List.zipWith (· + ·) acc.data g.data⟩ := by
      simp [npReshape, hglen, npAdd, h1]
    have hlen' : (List.zipWith (· + ·) acc.data g.data).length = s.prod := by
      simp [List.length_zipWith, h2, hglen]
    obtain ⟨r, hr, hrs, hrl, hsum⟩ :=
      ih ⟨s, List.zipWith (· + ·) acc.data g.data⟩ rfl hlen' hgs
    refine ⟨r, ?_, hrs, hrl, ?_⟩
    · simp only [List.foldlM, hstep, Option.bind_eq_bind, Option.some_bind]
      exact hr
    · intro k
      have hz := zipWith_add_getD acc.data g.data (by rw [h2, hglen]) k
      rw [hsum k]
      simp only [hz, List.map_cons, List.sum_cons]
      ring

lemma slicePerformGradient_getD (inputShape outShape : List Nat) (E : IndexExp)
    (grads : List NDArray) (hE : sliceShape E inputShape = some outShape)
    (hg : ∀ g ∈ grads, g.shape = outShape ∧ g.data.length = outShape.prod) :
    ∃ r, SliceOperation.performGradient false inputShape outShape E grads = some r ∧
      r.shape = inputShape ∧ r.data.length = inputShape.prod ∧
      ∀ k, r.data.getD k 0 =
        if k < inputShape.prod ∧ matchesE E (unflattenIdx inputShape k) = true then
          (grads.map (fun g =>
            g.data.getD (flattenIdx outShape (residualIdx E (unflattenIdx inputShape k))) 0)).sum
        else 0 := by
  obtain ⟨G, hG, hGs, hGl, hGsum⟩ :=
    foldlM_npAdd outShape grads (npZeros outShape) rfl (by simp [npZeros]) hg
  have hGget : ∀ k, G.data.getD k 0 = (grads.map (fun g => g.data.getD k 0)).sum := by
    intro k
    rw [hGsum k]
    simp [npZeros, replicate_getD]
  have hzsh : (npZeros inputShape).shape = inputShape := rfl
  have hset : npSetIndex (npZeros inputShape) E G =
      some ⟨inputShape, (List.range (npZeros inputShape).data.length).map (fun k =>
        if matchesE E (unflattenIdx inputShape k) then
          G.get (residualIdx E (unflattenIdx inputShape k))
        else (npZeros inputShape).data.getD k 0)⟩ := by
    simp [npSetIndex, hzsh, hE, hGs]
  have hzl : (npZeros inputShape).data.length = inputShape.prod := by simp [npZeros]
  refine ⟨⟨inputShape, (List.range (npZeros inputShape).data.length).map (fun k =>
      if matchesE E (unflattenIdx inputShape k) then
        G.get (residualIdx E (unflattenIdx inputShape k))
      else (npZeros inputShape).data.getD k 0)⟩, ?_, rfl, ?_, ?_⟩
  · simp only [SliceOperation.performGradient, Bool.false_eq_true, if_false, hG,
      Option.bind_eq_bind, Option.some_bind]
    exact hset
  · simp [hzl]
  · intro k
    by_cases hk : k < inputShape.prod
    · rw [range_map_getD _ _ _ (by simpa [hzl] using hk)]
      by_cases hm : matchesE E (unflattenIdx inputShape k) = true
      · rw [if_pos hm, if_pos ⟨hk, hm⟩]
        rw [NDArray.get, hGs, hGget]
      · rw [if_neg hm, if_neg (by tauto)]
        simp [npZeros, replicate_getD]
    · rw [getD_of_length_le _ _ (by simp [hzl]; omega), if_neg (by tauto)]

/-- C1: for a SliceOperation that is not an endNode, performGradient
returns an array of the input's shape whose entries at the positions
selected by the index expression equal the accumulated (summed)
output-shaped consumer gradients at the corresponding sliced positions,
and whose entries at every unselected position are zero; in particular,
for index expression [0, :] on a 2x2 input with one consumer supplying a
gradient of ones, the result is [[1, 1], [0, 0]]. -/
theorem spec_C1 (inputShape outShape : List Nat) (E : IndexExp) (grads : List NDArray)
    (hE : sliceShape E inputShape = some outShape)
    (hg : ∀ g ∈ grads, g.shape = outShape ∧ g.data.length = outShape.prod) :
    (∃ r, SliceOperation.performGradient false inputShape outShape E grads = some r ∧
      r.shape = inputShape ∧
      ∀ p, posInShape inputShape p = true →
        r.get p = if matchesE E p = true then
          (grads.map (fun g => g.get (residualIdx E p))).sum else 0) ∧
    SliceOperation.performGradient false [2, 2] [2] [IdxItem.fixed 0, IdxItem.all]
      [npOnes [2]] = some ⟨[2, 2], [1, 1, 0, 0]⟩ := by
  constructor
  · obtain ⟨r, hr, hrs, hrl, hget⟩ :=
      slicePerformGradient_getD inputShape outShape E grads hE hg
    refine ⟨r, hr, hrs, ?_⟩
    intro p hp
    have hk := flattenIdx_lt inputShape p hp
    have hu := unflattenIdx_flattenIdx inputShape p hp
    have hq := hget (flattenIdx inputShape p)
    rw [hu] at hq
    rw [NDArray.get, hrs, hq]
    by_cases hm : matchesE E p = true
    · rw [if_pos ⟨hk, hm⟩, if_pos hm]
      refine congrArg List.sum (List.map_congr_left ?_)
      intro g hgmem
      rw [NDArray.get, (hg g hgmem).1]
    · rw [if_neg (by tauto), if_neg hm]
  · decide

lemma reshapePG_eq_flattenPG (endNode : Bool) (inputShape : List Nat) (grads : List NDArray) :
    ReshapeFeaturesOperation.performGradient endNode inputShape grads =
      FlattenFeaturesOperation.performGradient endNode inputShape grads :=
  rfl

lemma flattenPG_getD (s : List Nat) (grads : List NDArray)
    (hg : ∀ g ∈ grads, g.data.length = s.prod) :
    ∃ r, FlattenFeaturesOperation.performGradient false s grads = some r ∧
      r.shape = s ∧ r.data.length = s.prod ∧
      ∀ k, r.data.getD k 0 = (grads.map (fun g => g.data.getD k 0)).sum := by
  obtain ⟨r, hr, h1, h2, h3⟩ :=
    foldlM_reshape_npAdd s grads (npZeros s) rfl (by simp [npZeros]) hg
  refine ⟨r, ?_, h1, h2, fun k => ?_⟩
  · simp only [FlattenFeaturesOperation.performGradient, Bool.false_eq_true, if_false]
    exact hr
  · rw [h3 k]
    simp [npZeros, replicate_getD]

lemma exists_contribs (f : NDArray → Option NDArray) (v : NDArray → Nat → ℤ) :
    ∀ l : List NDArray,
      (∀ g ∈ l, ∃ c, f g = some c ∧ ∀ k, c.data.getD k 0 = v g k) →
      ∃ rs, List.Forall₂ (fun g c => f g = some c) l rs ∧
        ∀ k, (rs.map (fun c => c.data.getD k 0)).sum = (l.map (fun g => v g k)).sum := by
  intro l
  induction l with
  | nil => intro _; exact ⟨[], List.Forall₂.nil, by simp⟩
  | cons g gs ih =>
    intro h
    obtain ⟨c, hc, hcv⟩ := h g (List.mem_cons_self _ _)
    obtain ⟨rs, hrs, hsum⟩ := ih (fun x hx => h x (List.mem_cons_of_mem _ hx))
    refine ⟨c :: rs, List.Forall₂.cons hc hrs, fun k => ?_⟩
    simp only [List.map_cons, List.sum_cons]
    rw [hcv k, hsum k]

/-- C2: for every non-endNode transformation operation, the gradient
computed by performGradient is the exact element-wise sum of the
contributions the individual consumers induce (each such contribution
being what performGradient computes when that consumer is the only one:
the consumer's gradient reshaped, or scattered, to the input's shape);
with two consumers the accumulated gradient is the element-wise sum of
the two individually-computed contributions. -/
theorem spec_C2 :
    (∀ (s : List Nat) (grads : List NDArray),
      (∀ g ∈ grads, g.data.length = s.prod) →
      ∃ r rs, FlattenFeaturesOperation.performGradient false s grads = some r ∧
        List.Forall₂
          (fun g c => FlattenFeaturesOperation.performGradient false s [g] = some c) grads rs ∧
        ∀ k, r.data.getD k 0 = (rs.map (fun c => c.data.getD k 0)).sum) ∧
    (∀ (s : List Nat) (grads : List NDArray),
      (∀ g ∈ grads, g.data.length = s.prod) →
      ∃ r rs, ReshapeFeaturesOperation.performGradient false s grads = some r ∧
        List.Forall₂
          (fun g c => ReshapeFeaturesOperation.performGradient false s [g] = some c) grads rs ∧
        ∀ k, r.data.getD k 0 = (rs.map (fun c => c.data.getD k 0)).sum) ∧
    (∀ (s outShape : List Nat) (E : IndexExp) (grads : List NDArray),
      sliceShape E s = some outShape →
      (∀ g ∈ grads, g.shape = outShape ∧ g.data.length = outShape.prod) →
      ∃ r rs, SliceOperation.performGradient false s outShape E grads = some r ∧
        List.Forall₂
          (fun g c => SliceOperation.performGradient false s outShape E [g] = some c) grads rs ∧
        ∀ k, r.data.getD k 0 = (rs.map (fun c => c.data.getD k 0)).sum) ∧
    (∀ (s : List Nat) (g1 g2 : NDArray),
      g1.data.length = s.prod → g2.data.length = s.prod →
      ∃ r r1 r2, FlattenFeaturesOperation.performGradient false s [g1, g2] = some r ∧
        FlattenFeaturesOperation.performGradient false s [g1] = some r1 ∧
        FlattenFeaturesOperation.performGradient false s [g2] = some r2 ∧
        ∀ k, r.data.getD k 0 = r1.data.getD k 0 + r2.data.getD k 0) := by
  have hflat : ∀ (s : List Nat) (grads : List NDArray),
      (∀ g ∈ grads, g.data.length = s.prod) →
      ∃ r rs, FlattenFeaturesOperation.performGradient false s grads = some r ∧
        List.Forall₂
          (fun g c => FlattenFeaturesOperation.performGradient false s [g] = some c) grads rs ∧
        ∀ k, r.data.getD k 0 = (rs.map (fun c => c.data.getD k 0)).sum := by
    intro s grads hg
    obtain ⟨r, hr, _, _, hrsum⟩ := flattenPG_getD s grads hg
    have hsingles : ∀ g ∈ grads,
        ∃ c, FlattenFeaturesOperation.performGradient false s [g] = some c ∧
          ∀ k, c.data.getD k 0 = g.data.getD k 0 := by
      intro g hgm
      obtain ⟨c, hc, _, _, hcs⟩ := flattenPG_getD s [g] (by simpa using hg g hgm)
      exact ⟨c, hc, fun k => by simpa using hcs k⟩
    obtain ⟨rs, hrs, hsum⟩ :=
      exists_contribs _ (fun g k => g.data.getD k 0) grads hsingles
    exact ⟨r, rs, hr, hrs, fun k => by rw [hrsum k, hsum k]⟩
  refine ⟨hflat, ?_, ?_, ?_⟩
  · intro s grads hg
    obtain ⟨r, rs, hr, hrs, hsum⟩ := hflat s grads hg
    refine ⟨r, rs, ?_, ?_, hsum⟩
    · rw [reshapePG_eq_flattenPG]
      exact hr
    · refine hrs.imp ?_
      intro g c hc
      rw [reshapePG_eq_flattenPG]
      exact hc
  · intro s outShape E grads hE hg
    obtain ⟨r, hr, _, _, hrsum⟩ := slicePerformGradient_getD s outShape E grads hE hg
    have hsingles : ∀ g ∈ grads,
        ∃ c, SliceOperation.performGradient false s outShape E [g] = some c ∧
          ∀ k, c.data.getD k 0 =
            if k < s.prod ∧ matchesE E (unflattenIdx s k) = true then
              g.data.getD (flattenIdx outShape (residualIdx E (unflattenIdx s k))) 0
            else 0 := by
      intro g hgm
      obtain ⟨c, hc, _, _, hcs⟩ :=
        slicePerformGradient_getD s outShape E [g] hE (by simpa using hg g hgm)
      refine ⟨c, hc, fun k => ?_⟩
      rw [hcs k]
      by_cases hcond : k < s.prod ∧ matchesE E (unflattenIdx s k) = true <;>
        simp [hcond]
    obtain ⟨rs, hrs, hsum⟩ := exists_contribs _ _ grads hsingles
    refine ⟨r, rs, hr, hrs, fun k => ?_⟩
    rw [hrsum k, hsum k]
    by_cases hcond : k < s.prod ∧ matchesE E (unflattenIdx s k) = true <;>
      simp [hcond]
  · intro s g1 g2 h1 h2
    have hboth : ∀ g ∈ [g1, g2], g.data.length = s.prod := by
      intro g hgm
      rcases List.mem_cons.mp hgm with rfl | hgm
      · exact h1
      · rcases List.mem_cons.mp hgm with rfl | hgm
        · exact h2
        · simp at hgm
    obtain ⟨r, hr, _, _, hrsum⟩ := flattenPG_getD s [g1, g2] hboth
    obtain ⟨r1, hr1, _, _, hrsum1⟩ := flattenPG_getD s [g1] (by simpa using h1)
    obtain ⟨r2, hr2, _, _, hrsum2⟩ := flattenPG_getD s [g2] (by simpa using h2)
    refine ⟨r, r1, r2, hr, hr1, hr2, fun k => ?_⟩
    rw [hrsum k, hrsum1 k, hrsum2 k]
    simp

/-- C3 (amended): for an input array of rank at least 2, flattening and
then reshaping with exampleShape equal to the original per-example shape
reproduces the original array exactly, contents and shape.  (As stated
over arbitrary arrays the claim fails: a rank-1 input comes back with
shape (1, d), see the counterexample.) -/
theorem spec_C3 (a : NDArray) (n d : Nat) (rest : List Nat)
    (hshape : a.shape = n :: d :: rest) (hlen : a.data.length = a.shape.prod) :
    ∃ fs b c,
      FlattenFeaturesOperation.setShape a.shape = some fs ∧
      FlattenFeaturesOperation.perform fs.2 a = some b ∧
      ReshapeFeaturesOperation.perform
        (ReshapeFeaturesOperation.setShape b.shape (d :: rest)).2 b = some c ∧
      c = a := by
  obtain ⟨sh, da⟩ := a
  simp only [NDArray.mk.injEq] at hshape ⊢
  subst hshape
  simp only [List.prod_cons] at hlen
  refine ⟨(n, [n, (d :: rest).prod]), ⟨[n, (d :: rest).prod], da⟩, ⟨n :: d :: rest, da⟩,
    rfl, ?_, ?_, rfl⟩
  · simp [FlattenFeaturesOperation.perform, npReshape, List.prod_cons, hlen]
  · simp [ReshapeFeaturesOperation.setShape, ReshapeFeaturesOperation.perform,
      npReshape, List.prod_cons, hlen]

/-- C3 counterexample: on the rank-1 input [5, 7] of shape (2,), flatten
gives shape (1, 2) and reshaping back with the per-example shape (2,)
yields an array of shape (1, 2), not the original array of shape (2,):
the composition preserves the contents but not the shape. -/
theorem spec_C3_cex :
    FlattenFeaturesOperation.setShape [2] = some (1, [1, 2]) ∧
    FlattenFeaturesOperation.perform [1, 2] ⟨[2], [5, 7]⟩ = some ⟨[1, 2], [5, 7]⟩ ∧
    ReshapeFeaturesOperation.setShape [1, 2] [2] = (1, [1, 2]) ∧
    ReshapeFeaturesOperation.perform [1, 2] ⟨[1, 2], [5, 7]⟩ = some ⟨[1, 2], [5, 7]⟩ ∧
    (⟨[1, 2], [5, 7]⟩ : NDArray) ≠ ⟨[2], [5, 7]⟩ := by
  refine ⟨rfl, by decide, rfl, by decide, by decide⟩

/-- C6 (amended): constructing a SliceOperation with a missing index
expression raises ValueError, and constructing one with an index
expression incompatible with the input's shape lets numpy's IndexError
propagate out of setShape; in neither case (nor in a successful
construction) is ShapeError raised. -/
theorem spec_C6 (inputShape : List Nat) (E : IndexExp)
    (h : sliceShape E inputShape = none) :
    SliceOperation.construct none inputShape = Except.error GAError.valueError ∧
    SliceOperation.construct (some E) inputShape = Except.error GAError.indexError ∧
    ∀ (inp : Option IndexExp) (err : GAError),
      SliceOperation.construct inp inputShape = Except.error err →
      err ≠ GAError.shapeError := by
  have hnone : npIndex (npZeros inputShape) E = none := by
    have hs := npIndex_shape (npZeros inputShape) E
    rw [show (npZeros inputShape).shape = inputShape from rfl, h] at hs
    exact Option.map_eq_none'.mp hs
  refine ⟨rfl, ?_, ?_⟩
  · simp [SliceOperation.construct, SliceOperation.setShape, hnone]
  · intro inp err hconstr
    cases inp with
    | none =>
      simp only [SliceOperation.construct, Except.error.injEq] at hconstr
      rw [← hconstr]
      decide
    | some E' =>
      simp only [SliceOperation.construct, SliceOperation.setShape] at hconstr
      cases hidx : npIndex (npZeros inputShape) E' with
      | none =>
        rw [hidx] at hconstr
        simp only [Except.error.injEq] at hconstr
        rw [← hconstr]
        decide
      | some r =>
        rw [hidx] at hconstr
        simp at hconstr

/-- C6 counterexample: a malformed index expression (three integer indices
on a rank-2 input) makes construction fail with IndexError, and a missing
index expression makes it fail with ValueError; neither error is
ShapeError, refuting the claim that ShapeError is raised. -/
theorem spec_C6_cex :
    SliceOperation.construct
        (some [IdxItem.fixed 0, IdxItem.fixed 0, IdxItem.fixed 0]) [2, 2]
      = Except.error GAError.indexError ∧
    SliceOperation.construct none [2, 2] = Except.error GAError.valueError ∧
    GAError.indexError ≠ GAError.shapeError ∧
    GAError.valueError ≠ GAError.shapeError := by
  refine ⟨rfl, rfl, by decide, by decide⟩

/-- C7 (amended): ReshapeFeaturesOperation.setShape performs no
compatibility check and never fails: whatever the input shape and the
exampleShape supplied at construction, it returns (n, (n,) + exampleShape)
with n the leading input dimension (1 for rank < 2).  An element-count
mismatch between the input and the configured output shape surfaces only
in perform, where numpy reshape fails. -/
theorem spec_C7 :
    (∀ (inputShape exampleShape : List Nat), ∃ n,
      ReshapeFeaturesOperation.setShape inputShape exampleShape = (n, n :: exampleShape)) ∧
    (∀ (sh : List Nat) (a : NDArray),
      ReshapeFeaturesOperation.perform sh a = none ↔ a.data.length ≠ sh.prod) := by
  constructor
  · intro inputShape exampleShape
    match inputShape with
    | [] => exact ⟨1, rfl⟩
    | [x] => exact ⟨1, rfl⟩
    | x :: y :: t => exact ⟨x, rfl⟩
  · intro sh a
    by_cases hc : a.data.length = sh.prod <;>
      simp [ReshapeFeaturesOperation.perform, npReshape, hc]

/-- C7 counterexample: with input shape (2, 3) and exampleShape (4,), the
per-example element count 3 differs from 4, yet setShape succeeds and
returns shape (2, 4) without raising anything; the failure only occurs in
perform (numpy cannot reshape 6 elements into shape (2, 4)).  This refutes
the claim that setShape fails with ShapeError on incompatible shapes. -/
theorem spec_C7_cex :
    ReshapeFeaturesOperation.setShape [2, 3] [4] = (2, [2, 4]) ∧
    ReshapeFeaturesOperation.perform [2, 4] ⟨[2, 3], [0, 0, 0, 0, 0, 0]⟩ = none := by
  refine ⟨rfl, by decide⟩

/-- C8: the output shape of every transformation operation is a function
of the input shape (and the construction-time parameters) alone.  Indexing
two arrays of the same shape with the same expression yields results of
the same shape (or fails the same way), that shape agrees with what
SliceOperation.setShape precomputed from a zeros test matrix before any
data flowed, and the flatten/reshape shape computations read nothing but
the shape. -/
theorem spec_C8 (a b : NDArray) (E : IndexExp) (exampleShape : List Nat)
    (h : a.shape = b.shape) :
    Option.map NDArray.shape (npIndex a E) = Option.map NDArray.shape (npIndex b E) ∧
    (∀ sh, SliceOperation.setShape E a.shape = Except.ok sh →
      Option.map NDArray.shape (npIndex a E) = some sh) ∧
    FlattenFeaturesOperation.setShape a.shape = FlattenFeaturesOperation.setShape b.shape ∧
    ReshapeFeaturesOperation.setShape a.shape exampleShape
      = ReshapeFeaturesOperation.setShape b.shape exampleShape := by
  refine ⟨?_, ?_, by rw [h], by rw [h]⟩
  · rw [npIndex_shape, npIndex_shape, h]
  · intro sh hok
    have hz := npIndex_shape (npZeros a.shape) E
    rw [show (npZeros a.shape).shape = a.shape from rfl] at hz
    rw [npIndex_shape]
    simp only [SliceOperation.setShape] at hok
    cases hidx : npIndex (npZeros a.shape) E with
    | none => rw [hidx] at hok; simp at hok
    | some r =>
      rw [hidx] at hok
      simp only [Except.ok.injEq] at hok
      rw [hidx] at hz
      simp only [Option.map_some'] at hz
      rw [← hz, hok]

/-- Witness for C1 at a concrete input: index expression [0, :] on a 2x2
input with a single consumer gradient of ones scatters to [[1, 1], [0, 0]]. -/
theorem spec_C1_witness :
    SliceOperation.performGradient false [2, 2] [2] [IdxItem.fixed 0, IdxItem.all]
      [npOnes [2]] = some ⟨[2, 2], [1, 1, 0, 0]⟩ :=
  (spec_C1 [2, 2] [2] [IdxItem.fixed 0, IdxItem.all] [npOnes [2]]
    (by decide) (by decide)).2

/-- Witness for C3 at a concrete input: the 2x2 array [[1, 2], [3, 4]]
survives flattening to (2, 2) and reshaping back with exampleShape (2,). -/
theorem spec_C3_witness :
    ∃ fs b c,
      FlattenFeaturesOperation.setShape (NDArray.mk [2, 2] [1, 2, 3, 4]).shape = some fs ∧
      FlattenFeaturesOperation.perform fs.2 ⟨[2, 2], [1, 2, 3, 4]⟩ = some b ∧
      ReshapeFeaturesOperation.perform
        (ReshapeFeaturesOperation.setShape b.shape [2]).2 b = some c ∧
      c = ⟨[2, 2], [1, 2, 3, 4]⟩ :=
  spec_C3 ⟨[2, 2], [1, 2, 3, 4]⟩ 2 2 [] rfl (by decide)

/-- Witness for C6 at a concrete input: the out-of-bounds index expression
[5] on a rank-2 input of shape (2, 2) makes construction fail with
IndexError. -/
theorem spec_C6_witness :
    SliceOperation.construct (some [IdxItem.fixed 5]) [2, 2]
      = Except.error GAError.indexError :=
  (spec_C6 [2, 2] [IdxItem.fixed 5] (by decide)).2.1

/-- Witness for C8 at a concrete input: two 2x2 arrays with different data
but the same shape produce results of the same shape under the index
expression [1, :]. -/
theorem spec_C8_witness :
    Option.map NDArray.shape
        (npIndex ⟨[2, 2], [1, 2, 3, 4]⟩ [IdxItem.fixed 1, IdxItem.all])
      = Option.map NDArray.shape
        (npIndex ⟨[2, 2], [9, 8, 7, 6]⟩ [IdxItem.fixed 1, IdxItem.all]) :=
  (spec_C8 ⟨[2, 2], [1, 2, 3, 4]⟩ ⟨[2, 2], [9, 8, 7, 6]⟩
    [IdxItem.fixed 1, IdxItem.all] [] rfl).1
